import Mathlib

/-!
Verification development for the applicant data pipeline
(`src/main.py`, `src/decompress.py`).

The Python code manipulates Airtable records whose `fields` are JSON
objects (Python dicts: string-keyed, insertion-ordered, duplicate-free).
We embed such objects as association lists `Fields := List (String × Value)`
with first-match lookup, in-place replacement on assignment, and
full-key removal on `pop` — exactly the observable dict operations the
source uses.  Numbers are embedded as `Rat` (exact arithmetic standing
in for Python's numerics), record links (`[record_id]`) as `vLink`.
-/

namespace Mercor

/-- A JSON/Airtable field value as manipulated by the Python source:
`null`, a string, a number, or a list of linked record ids. -/
inductive Value where
  | vNull : Value
  | vStr (s : String) : Value
  | vNum (q : Rat) : Value
  | vLink (ids : List String) : Value
deriving DecidableEq, Repr

/-- A Python dict holding one record's fields (string-keyed JSON object). -/
abbrev Fields := List (String × Value)

/-- Dict lookup `d.get(k)`: first entry with the given key. -/
def getF : Fields → String → Option Value
  | [], _ => none
  | (k', v) :: rest, k => if k' = k then some v else getF rest k

/-- Dict assignment `d[k] = v`: replace the first entry with the key in
place, otherwise append at the end (Python insertion order). -/
def setF : Fields → String → Value → Fields
  | [], k, v => [(k, v)]
  | (k', v') :: rest, k, v =>
      if k' = k then (k, v) :: rest else (k', v') :: setF rest k v

/-- Dict removal `d.pop(k, None)`: drop every entry with the key. -/
def eraseF : Fields → String → Fields
  | [], _ => []
  | (k', v) :: rest, k =>
      if k' = k then eraseF rest k else (k', v) :: eraseF rest k

/-- Merging update `d.update(new)` / a PATCH-style Airtable `update`:
assign every entry of `new` into `old`, left to right. -/
def mergeF (old new : Fields) : Fields :=
  new.foldl (fun acc e => setF acc e.1 e.2) old

/-- The keys of a field map are pairwise distinct (always true of a
Python dict / parsed JSON object). -/
def noDupKeysB : Fields → Bool
  | [] => true
  | (k, _) :: rest => (getF rest k).isNone && noDupKeysB rest

/-- Python truthiness of a field value (`if value:`). -/
def truthy : Value → Bool
  | .vNull => false
  | .vStr s => !s.data.isEmpty
  | .vNum q => decide (q ≠ 0)
  | .vLink l => !l.isEmpty

@[simp] theorem getF_nil (k : String) : getF [] k = none := rfl

theorem getF_cons (k' : String) (v : Value) (rest : Fields) (k : String) :
    getF ((k', v) :: rest) k = if k' = k then some v else getF rest k := rfl

theorem getF_eraseF (fs : Fields) (k k' : String) :
    getF (eraseF fs k') k = if k = k' then none else getF fs k := by
  induction fs with
  | nil => simp [eraseF]
  | cons e rest ih =>
    obtain ⟨ek, ev⟩ := e
    by_cases h1 : ek = k'
    · subst h1
      simp only [eraseF, eq_self_iff_true, if_true]
      rw [ih]
      by_cases h2 : k = ek
      · simp [h2]
      · simp [h2, getF_cons, Ne.symm h2]
    · simp only [eraseF, if_neg h1, getF_cons]
      by_cases h3 : ek = k
      · subst h3
        simp [getF_cons, h1]
      · simp [getF_cons, h3, ih]

theorem getF_setF (fs : Fields) (k k' : String) (v : Value) :
    getF (setF fs k' v) k = if k' = k then some v else getF fs k := by
  induction fs with
  | nil => simp [setF, getF_cons]
  | cons e rest ih =>
    obtain ⟨ek, ev⟩ := e
    by_cases h1 : ek = k'
    · subst h1
      simp only [setF, eq_self_iff_true, if_true, getF_cons]
      by_cases h2 : ek = k
      · simp [h2, getF_cons]
      · simp [h2, Ne.symm h2, getF_cons]
    · simp only [setF, if_neg h1, getF_cons]
      by_cases h3 : ek = k
      · subst h3
        have h4 : ¬ k' = ek := fun hh => h1 hh.symm
        simp [getF_cons, h4]
      · simp [getF_cons, h3, ih]

theorem eraseF_append (xs ys : Fields) (k : String) :
    eraseF (xs ++ ys) k = eraseF xs k ++ eraseF ys k := by
  induction xs with
  | nil => simp [eraseF]
  | cons e rest ih =>
    obtain ⟨ek, ev⟩ := e
    by_cases h : ek = k <;> simp [eraseF, h, ih]

theorem eraseF_setF_same (fs : Fields) (k : String) (v : Value) :
    eraseF (setF fs k v) k = eraseF fs k := by
  induction fs with
  | nil => simp [setF, eraseF]
  | cons e rest ih =>
    obtain ⟨ek, ev⟩ := e
    by_cases h : ek = k
    · subst h; simp [setF, eraseF, ih]
    · simp [setF, eraseF, h, ih]

theorem eraseF_comm (fs : Fields) (k k' : String) :
    eraseF (eraseF fs k) k' = eraseF (eraseF fs k') k := by
  induction fs with
  | nil => simp [eraseF]
  | cons e rest ih =>
    obtain ⟨ek, ev⟩ := e
    by_cases h1 : ek = k <;> by_cases h2 : ek = k'
    · have h3 : k = k' := h1.symm.trans h2
      simp [eraseF, h1, h2, h3, ih]
    · have h3 : ¬ k = k' := fun hh => h2 (h1.trans hh)
      simp [eraseF, h1, h2, h3, ih]
    · have h3 : ¬ k' = k := fun hh => h1 (h2.trans hh)
      simp [eraseF, h1, h2, h3, ih]
    · simp [eraseF, h1, h2, ih]

theorem setF_of_not_mem (fs : Fields) (k : String) (v : Value)
    (h : getF fs k = none) : setF fs k v = fs ++ [(k, v)] := by
  induction fs with
  | nil => simp [setF]
  | cons e rest ih =>
    obtain ⟨ek, ev⟩ := e
    simp only [getF_cons] at h
    by_cases h1 : ek = k
    · simp [h1] at h
    · simp only [if_neg h1] at h
      simp [setF, h1, ih h]

theorem getF_eraseF_self (fs : Fields) (k : String) :
    getF (eraseF fs k) k = none := by
  simp [getF_eraseF]

theorem setF_eq_self (fs : Fields) (k : String) (v : Value)
    (h : getF fs k = some v) : setF fs k v = fs := by
  induction fs with
  | nil => simp [getF] at h
  | cons e rest ih =>
    obtain ⟨ek, ev⟩ := e
    rw [getF_cons] at h
    by_cases h1 : ek = k
    · rw [if_pos h1, Option.some.injEq] at h
      subst h1
      subst h
      simp [setF]
    · rw [if_neg h1] at h
      simp [setF, h1, ih h]

theorem mergeF_nil (fs : Fields) : mergeF fs [] = fs := rfl

theorem mergeF_cons (fs : Fields) (e : String × Value) (rest : List (String × Value)) :
    mergeF fs (e :: rest) = mergeF (setF fs e.1 e.2) rest := rfl

theorem mergeF_append (fs xs ys : Fields) :
    mergeF fs (xs ++ ys) = mergeF (mergeF fs xs) ys := by
  simp [mergeF, List.foldl_append]

/-- Assigning entries that are already present with the same value is a
no-op. -/
theorem mergeF_of_sub (fs gs : Fields)
    (h : ∀ e ∈ gs, getF fs e.1 = some e.2) : mergeF fs gs = fs := by
  induction gs with
  | nil => rfl
  | cons e rest ih =>
    rw [mergeF_cons, setF_eq_self fs e.1 e.2 (h e (List.mem_cons_self e rest))]
    exact ih fun e' he' => h e' (List.mem_cons_of_mem e he')

theorem mem_of_mem_eraseF (fs : Fields) (k : String) (e : String × Value)
    (h : e ∈ eraseF fs k) : e ∈ fs := by
  induction fs with
  | nil => simp [eraseF] at h
  | cons e' rest ih =>
    obtain ⟨ek, ev⟩ := e'
    by_cases h1 : ek = k
    · simp only [eraseF, if_pos h1] at h
      exact List.mem_cons_of_mem _ (ih h)
    · simp only [eraseF, if_neg h1, List.mem_cons] at h
      rcases h with h | h
      · exact h ▸ List.mem_cons_self _ _
      · exact List.mem_cons_of_mem _ (ih h)

theorem getF_of_mem_nodup (fs : Fields) (k : String) (v : Value)
    (hnd : noDupKeysB fs = true) (h : (k, v) ∈ fs) : getF fs k = some v := by
  induction fs with
  | nil => simp at h
  | cons e rest ih =>
    obtain ⟨ek, ev⟩ := e
    simp only [noDupKeysB, Bool.and_eq_true, Option.isNone_iff_eq_none] at hnd
    rcases List.mem_cons.mp h with h | h
    · obtain ⟨h1, h2⟩ := Prod.mk.injEq .. ▸ h
      simp [getF_cons, h1.symm, h2]
    · by_cases h1 : ek = k
      · subst h1
        have := ih hnd.2 h
        rw [hnd.1] at this
        exact absurd this (by simp)
      · simp [getF_cons, h1, ih hnd.2 h]

theorem getF_mergeF_of_not_mem (fs gs : Fields) (k : String)
    (h : getF gs k = none) : getF (mergeF fs gs) k = getF fs k := by
  induction gs generalizing fs with
  | nil => rfl
  | cons e rest ih =>
    obtain ⟨ek, ev⟩ := e
    simp only [getF_cons] at h
    by_cases h1 : ek = k
    · simp [h1] at h
    · simp only [if_neg h1] at h
      rw [mergeF_cons, ih _ h, getF_setF]
      simp [h1]

theorem getF_mergeF (fs gs : Fields) (k : String)
    (hnd : noDupKeysB gs = true) :
    getF (mergeF fs gs) k =
      match getF gs k with
      | some v => some v
      | none => getF fs k := by
  induction gs generalizing fs with
  | nil => rfl
  | cons e rest ih =>
    obtain ⟨ek, ev⟩ := e
    simp only [noDupKeysB, Bool.and_eq_true, Option.isNone_iff_eq_none] at hnd
    rw [mergeF_cons]
    by_cases h1 : ek = k
    · subst h1
      have hrest : getF rest ek = none := hnd.1
      rw [getF_mergeF_of_not_mem _ _ _ hrest, getF_setF]
      simp [getF_cons, hrest]
    · rw [ih _ hnd.2, getF_cons, if_neg h1]
      cases getF rest k with
      | none => simp [getF_setF, h1]
      | some v => simp

theorem noDupKeysB_eraseF (fs : Fields) (k : String)
    (h : noDupKeysB fs = true) : noDupKeysB (eraseF fs k) = true := by
  induction fs with
  | nil => simp [eraseF, noDupKeysB]
  | cons e rest ih =>
    obtain ⟨ek, ev⟩ := e
    simp only [noDupKeysB, Bool.and_eq_true, Option.isNone_iff_eq_none] at h
    by_cases h1 : ek = k
    · simp only [eraseF, if_pos h1]
      exact ih h.2
    · simp only [eraseF, if_neg h1, noDupKeysB, Bool.and_eq_true,
        Option.isNone_iff_eq_none]
      refine ⟨?_, ih h.2⟩
      rw [getF_eraseF]
      by_cases h2 : ek = k <;> simp [h2, h.1]

theorem noDupKeysB_setF (fs : Fields) (k : String) (v : Value)
    (h : noDupKeysB fs = true) : noDupKeysB (setF fs k v) = true := by
  induction fs with
  | nil => simp [setF, noDupKeysB, getF]
  | cons e rest ih =>
    obtain ⟨ek, ev⟩ := e
    simp only [noDupKeysB, Bool.and_eq_true, Option.isNone_iff_eq_none] at h
    by_cases h1 : ek = k
    · subst h1
      simp only [setF, if_pos rfl, noDupKeysB, Bool.and_eq_true,
        Option.isNone_iff_eq_none]
      exact ⟨h.1, h.2⟩
    · simp only [setF, if_neg h1, noDupKeysB, Bool.and_eq_true,
        Option.isNone_iff_eq_none]
      refine ⟨?_, ih h.2⟩
      rw [getF_setF]
      have h2 : ¬ k = ek := fun hh => h1 hh.symm
      simp [h2, h.1]

/-!
Section: Python string primitives

The scanner and the rules only use ASCII string operations; we model
them over `String.data` (`List Char`) so that everything reduces in the
kernel.
-/

/-- ASCII `str.lower()` on one character (all strings in play are ASCII). -/
def pyLowerChar (c : Char) : Char :=
  if 'A' ≤ c ∧ c ≤ 'Z' then Char.ofNat (c.toNat + 32) else c

/-- Python `s.lower()`. -/
def pyLower (s : String) : String := ⟨s.data.map pyLowerChar⟩

/-- The characters Python `str.strip()` removes. -/
def pySpaceChar (c : Char) : Bool :=
  c = ' ' || c = '\t' || c = '\n' || c = '\r' || c = '\x0b' || c = '\x0c'

def pyStripL (cs : List Char) : List Char :=
  ((cs.dropWhile pySpaceChar).reverse.dropWhile pySpaceChar).reverse

/-- Python `s.strip()`. -/
def pyStrip (s : String) : String := ⟨pyStripL s.data⟩

/-- `startsWithL pat cs`: `cs` begins with `pat` (Python `str.startswith`). -/
def startsWithL : List Char → List Char → Bool
  | [], _ => true
  | _ :: _, [] => false
  | p :: ps, c :: cs => p = c && startsWithL ps cs

/-- `containsL pat cs`: `pat` occurs as a contiguous substring of `cs`
(Python `pat in cs`). -/
def containsL : List Char → List Char → Bool
  | pat, [] => startsWithL pat []
  | pat, c :: cs => startsWithL pat (c :: cs) || containsL pat cs

/-- Python substring test `pat in s`. -/
def containsStr (pat s : String) : Bool := containsL pat.data s.data

/-- Python `s.split(sep)` for a one-character separator: always returns
at least one (possibly empty) group. -/
def splitOnCharL (sep : Char) : List Char → List (List Char)
  | [] => [[]]
  | c :: cs =>
    match splitOnCharL sep cs with
    | [] => [[]]
    | g :: gs => if c = sep then [] :: g :: gs else (c :: g) :: gs

/-- Python `s.replace(pat, rep)` (all non-overlapping occurrences, left
to right); fuelled structural recursion, `fuel = s.length` suffices
since the source only replaces non-empty patterns. -/
def replaceAllL : Nat → List Char → List Char → List Char → List Char
  | 0, s, _, _ => s
  | _ + 1, [], _, _ => []
  | fuel + 1, c :: cs, pat, rep =>
    if !pat.isEmpty && startsWithL pat (c :: cs) then
      rep ++ replaceAllL fuel ((c :: cs).drop pat.length) pat rep
    else
      c :: replaceAllL fuel cs pat rep

/-- Python `s.replace(pat, rep)`. -/
def pyReplace (s pat rep : String) : String :=
  ⟨replaceAllL s.data.length s.data pat.data rep.data⟩

/-- Tail of a Python integer literal after its first digit: digits with
single underscores strictly between digits (PEP 515, as accepted by
`int(...)`). -/
def intTail : List Char → Bool
  | [] => true
  | c :: rest =>
    if c.isDigit then intTail rest
    else if c = '_' then
      (match rest with | d :: _ => d.isDigit | [] => false) && intTail rest
    else false

/-- A non-empty all-digit group possibly using PEP 515 underscores. -/
def intDigits : List Char → Bool
  | [] => false
  | c :: rest => c.isDigit && intTail rest

/-- Decimal value of a digit group, ignoring underscores. -/
def digitsVal (cs : List Char) : Nat :=
  (cs.filter (fun c => c ≠ '_')).foldl (fun a c => a * 10 + (c.toNat - 48)) 0

/-- Python `int(s)` on an already-stripped string: optional sign then a
valid digit group; `none` models the `ValueError`. -/
def pyParseInt (s : String) : Option Int :=
  match s.data with
  | '+' :: rest => if intDigits rest then some (digitsVal rest : Int) else none
  | '-' :: rest => if intDigits rest then some (-(digitsVal rest : Int)) else none
  | rest => if intDigits rest then some (digitsVal rest : Int) else none

/-!
Section: Dates and the experience computation (`src/main.py` lines 39-50)

`datetime.strptime(s, "%Y-%m-%d")`: exactly four year digits, one or
two month digits in 1..12, one or two day digits valid for the month,
joined by literal dashes with nothing left over.
-/

structure PyDate where
  year : Nat
  month : Nat
  day : Nat
deriving DecidableEq, Repr

def isLeapYear (y : Nat) : Bool :=
  y % 4 = 0 && (y % 100 ≠ 0 || y % 400 = 0)

def daysInMonth (y m : Nat) : Nat :=
  if m = 2 then (if isLeapYear y then 29 else 28)
  else if m = 4 || m = 6 || m = 9 || m = 11 then 30
  else 31

def allDigitsL (cs : List Char) : Bool := !cs.isEmpty && cs.all (fun c => c.isDigit)

/-- `datetime.strptime(s, "%Y-%m-%d")`, `none` for `ValueError`. -/
def parse_date (s : String) : Option PyDate :=
  match splitOnCharL '-' s.data with
  | [ys, ms, ds] =>
    if allDigitsL ys && decide (ys.length = 4)
        && allDigitsL ms && decide (ms.length ≤ 2)
        && allDigitsL ds && decide (ds.length ≤ 2) then
      let y := digitsVal ys
      let m := digitsVal ms
      let d := digitsVal ds
      if decide (1 ≤ m) && decide (m ≤ 12) && decide (1 ≤ d)
          && decide (d ≤ daysInMonth y m) then
        some ⟨y, m, d⟩
      else none
    else none
  | _ => none

/-- `(end.year - start.year) * 12 + (end.month - start.month)`. -/
def month_diff (s e : PyDate) : Int :=
  ((e.year : Int) - (s.year : Int)) * 12 + ((e.month : Int) - (s.month : Int))

/-- The body of the `try` block in `calculate_total_experience` for one
job: months contributed by the entry, or `none` when the entry is
skipped (`ValueError`/`TypeError` on `Start`, or on a truthy but
unparsable/non-string `End`).  A falsy `End` (absent, `null`, `""`)
means "still employed": the current date `now` is used. -/
def jobMonths (now : PyDate) (job : Fields) : Option Int :=
  match getF job "Start" with
  | some (.vStr s) =>
    match parse_date s with
    | some start_date =>
      match getF job "End" with
      | none => some (month_diff start_date now)
      | some endVal =>
        if truthy endVal then
          match endVal with
          | .vStr es => (parse_date es).map (fun end_date => month_diff start_date end_date)
          | _ => none
        else some (month_diff start_date now)
    | none => none
  | _ => none

/-- The `total_months` accumulator of `calculate_total_experience`
after the loop. -/
def totalMonths (now : PyDate) (experience_list : List Fields) : Int :=
  experience_list.foldl
    (fun acc job =>
      match jobMonths now job with
      | some m => acc + m
      | none => acc)
    0

/-- `calculate_total_experience` (`src/main.py` lines 39-50): sum the
months of every non-skipped entry, then divide by 12. -/
def calculate_total_experience (now : PyDate) (experience_list : List Fields) : Rat :=
  (totalMonths now experience_list : Rat) / 12

/-- The experience threshold `total_exp_years >= 4` in integer months:
`total_months / 12 >= 4` iff `total_months >= 48` (exact arithmetic). -/
theorem four_le_years_iff (m : Int) :
    ((4 : Rat) ≤ (m : Rat) / 12) ↔ (48 : Int) ≤ m := by
  rw [le_div_iff₀ (by norm_num : (0 : Rat) < 12)]
  norm_num
  exact_mod_cast Iff.rfl

theorem experience_decide_eq (now : PyDate) (l : List Fields) :
    decide ((4 : Rat) ≤ calculate_total_experience now l)
      = decide ((48 : Int) ≤ totalMonths now l) := by
  simp only [calculate_total_experience]
  rw [decide_eq_decide]
  exact four_le_years_iff _

example : parse_date "2019-01-01" = some ⟨2019, 1, 1⟩ := by decide
example : parse_date "2019-13-01" = none := by decide
example : parse_date "2019-1-1" = some ⟨2019, 1, 1⟩ := by decide
example : parse_date "19-01-01" = none := by decide
example : parse_date "2019-01-01x" = none := by decide
example : pyLower "GoOgle" = "google" := by decide
example : containsStr "us" "australia" = true := by decide
example : containsStr "us" "" = false := by decide
example : pyStrip " a b " = "a b" := by decide
example : pyReplace "Score: 8" "Score:" "" = " 8" := by decide
example : pyParseInt "8" = some 8 := by decide
example : pyParseInt "-8" = some (-8) := by decide
example : pyParseInt "1_0" = some 10 := by decide
example : pyParseInt "1__0" = none := by decide
example : pyParseInt "" = none := by decide
example : splitOnCharL '\n' "a\nb".data = [['a'], ['b']] := by decide

/-!
Section: The compressed JSON document and the shortlist evaluator
(`src/main.py` lines 33-85)

`compress_evaluate_enrich` always builds a document with exactly the
three keys `personal` (object), `experience` (array of objects),
`salary` (object); `evaluate_shortlisting` consumes such a document.
A Python runtime error inside the evaluator (\"…\".lower()` on a
non-string, ordering a string against `100`) is modelled as
`Except.error ()`: it aborts the evaluation with no lead created.
-/

structure AppJson where
  personal : Fields
  experience : List Fields
  salary : Fields
deriving DecidableEq, Repr

def TIER_1_COMPANIES : List String :=
  ["google", "meta", "openai", "apple", "amazon", "netflix", "microsoft"]

def APPROVED_LOCATIONS : List String :=
  ["us", "united states", "canada", "uk", "united kingdom", "germany", "india"]

/-- `d.get(key, default)` used where the Python code then calls a `str`
method on the result: a present non-string value raises
(`AttributeError`/`TypeError`), modelled as `error`. -/
def asPyStr (v : Option Value) (dflt : String) : Except Unit String :=
  match v with
  | none => .ok dflt
  | some (.vStr s) => .ok s
  | some _ => .error ()

/-- `any(job.get("Company", "").lower() in TIER_1_COMPANIES for job in
experience_list)` — a short-circuiting generator. -/
def worked_at_tier_1 : List Fields → Except Unit Bool
  | [] => .ok false
  | job :: rest => do
    let c ← asPyStr (getF job "Company") ""
    if TIER_1_COMPANIES.contains (pyLower c) then .ok true
    else worked_at_tier_1 rest

/-- The data interpolated into the f-string reason
`f"Exp: {total_exp_years:.1f} yrs (Tier-1: {worked_at_tier_1}), Comp:
${rate}/hr @ {availability} hrs/wk, Loc: {personal.get('Location')}"`.
`rate`/`availability`/`location` hold the raw looked-up values (`none`
standing for the absent-key defaults `float('inf')`, `0`, `None`). -/
structure ScoreReason where
  expYears : Rat
  tier1 : Bool
  rate : Option Value
  availability : Option Value
  location : Option Value
deriving DecidableEq, Repr

/-- A row of the `Shortlisted Leads` table as created on a pass. -/
structure Lead where
  applicant : String
  compressedJson : AppJson
  scoreReason : ScoreReason
deriving DecidableEq, Repr

/-- The lead record `evaluate_shortlisting` creates when all three
rules pass. -/
def mkLead (now : PyDate) (applicant_record_id : String) (applicant_json : AppJson)
    (tier1 : Bool) : Lead :=
  { applicant := applicant_record_id
    compressedJson := applicant_json
    scoreReason :=
      { expYears := calculate_total_experience now applicant_json.experience
        tier1 := tier1
        rate := getF applicant_json.salary "Preferred Rate"
        availability := getF applicant_json.salary "Availability (hrs/wk)"
        location := getF applicant_json.personal "Location" } }

/-- `evaluate_shortlisting` (`src/main.py` lines 52-85), returning the
list of `Shortlisted Leads` rows created (`[]` or one record).  `now`
is the value of `datetime.now()` during `calculate_total_experience`. -/
def evaluate_shortlisting (now : PyDate) (applicant_record_id : String)
    (applicant_json : AppJson) : Except Unit (List Lead) := do
  let experience_list := applicant_json.experience
  let total_exp_years := calculate_total_experience now experience_list
  let tier1 ← worked_at_tier_1 experience_list
  let experience_ok := decide ((4 : Rat) ≤ total_exp_years) || tier1
  let rate_ok ←
    match getF applicant_json.salary "Preferred Rate" with
    | none => Except.ok false
    | some .vNull => Except.ok false
    | some (.vNum q) => Except.ok (decide (q ≤ 100))
    | some _ => Except.error ()
  let compensation_ok ←
    if rate_ok then
      match getF applicant_json.salary "Availability (hrs/wk)" with
      | none => Except.ok false
      | some .vNull => Except.ok false
      | some (.vNum q) => Except.ok (decide ((20 : Rat) ≤ q))
      | some _ => Except.error ()
    else Except.ok false
  let locStr ← asPyStr (getF applicant_json.personal "Location") ""
  let location := pyLower locStr
  let location_ok := APPROVED_LOCATIONS.any (fun loc => containsStr loc location)
  if experience_ok && compensation_ok && location_ok then
    Except.ok [mkLead now applicant_record_id applicant_json tier1]
  else
    Except.ok []

/-!
Section: The LLM response scanner (`src/main.py` lines 87-114)
-/

inductive LLMSection where
  | summary
  | score
  | followUps
deriving DecidableEq, Repr

/-- The dict `parsed_data` built by `parse_llm_response`: keys
`LLM Summary`, `LLM Score`, `LLM Follow-Ups`. -/
structure ParsedLLM where
  summary : Option String
  score : Option Int
  followUps : Option String
deriving DecidableEq, Repr

/-- Python `if update_data:` — the dict is non-empty. -/
def ParsedLLM.nonEmpty (d : ParsedLLM) : Bool :=
  d.summary.isSome || d.score.isSome || d.followUps.isSome

/-- One iteration of the line loop in `parse_llm_response`.  A
malformed `Score:` line hits `continue`: nothing is recorded and the
current section marker is left unchanged. -/
def llmStep (st : ParsedLLM × Option LLMSection) (line : List Char) :
    ParsedLLM × Option LLMSection :=
  let d := st.1
  let cur := st.2
  if startsWithL "Summary:".data line then
    ({ d with summary := some (pyStrip (pyReplace ⟨line⟩ "Summary:" "")) },
      some .summary)
  else if startsWithL "Score:".data line then
    match pyParseInt (pyStrip (pyReplace ⟨line⟩ "Score:" "")) with
    | some n => ({ d with score := some n }, some .score)
    | none => (d, cur)
  else if startsWithL "Issues:".data line || startsWithL "Follow-Ups:".data line then
    ({ d with followUps := some ((d.followUps.getD "") ++ ⟨line⟩ ++ "\n") },
      some .followUps)
  else if cur = some LLMSection.followUps ∧ pyStripL line ≠ [] then
    ({ d with followUps := some ((d.followUps.getD "") ++ ⟨line⟩ ++ "\n") }, cur)
  else (d, cur)

/-- `parse_llm_response` (`src/main.py` lines 87-114). -/
def parse_llm_response (response_text : String) : ParsedLLM :=
  let lines := splitOnCharL '\n' (pyStrip response_text).data
  let d := (lines.foldl llmStep (⟨none, none, none⟩, none)).1
  match d.followUps with
  | some s => { d with followUps := some (pyStrip s) }
  | none => d

/-!
Section: The LLM evaluator with retry (`src/main.py` lines 116-177)

The externally observable behaviour is a trace of events: calls to the
generation service, `time.sleep` waits, and the single
`APPLICANTS_TABLE.update` write.  The generation service is an oracle
mapping the attempt index to a response text or a raised exception.
The Python function always returns normally (every exception from the
call is caught), which the embedding reflects by being a total
function into traces.
-/

inductive LLMEvent where
  | genCall (attempt : Nat)
  | sleep (seconds : Nat)
  | updateRoot (update_data : ParsedLLM)
deriving DecidableEq, Repr

/-- The `for attempt in range(max_retries)` loop, `remaining` attempts
left.  On success: parse, write back iff the parsed dict is non-empty,
and return.  On exception: if this was not the last attempt, sleep
`2 ** attempt` seconds and retry. -/
def llmAttemptLoop (oracle : Nat → Except Unit String) :
    Nat → Nat → List LLMEvent
  | _, 0 => []
  | attempt, remaining + 1 =>
    match oracle attempt with
    | .ok response_text =>
      let update_data := parse_llm_response response_text
      LLMEvent.genCall attempt ::
        (if update_data.nonEmpty then [LLMEvent.updateRoot update_data] else [])
    | .error _ =>
      if remaining = 0 then [LLMEvent.genCall attempt]
      else LLMEvent.genCall attempt :: LLMEvent.sleep (2 ^ attempt) ::
        llmAttemptLoop oracle (attempt + 1) remaining

/-- The guard `if applicant_record.get('fields', {}).get('LLM Score'):`
(`src/main.py` line 120): Python truthiness of the stored value,
`False` when the key is absent. -/
def llmScoreTruthy (applicant_fields : Fields) : Bool :=
  match getF applicant_fields "LLM Score" with
  | some v => truthy v
  | none => false

/-- `evaluate_with_llm` (`src/main.py` lines 116-177) as its trace of
external events.  `applicant_fields` is `applicant_record['fields']`. -/
def evaluate_with_llm (applicant_fields : Fields)
    (oracle : Nat → Except Unit String) : List LLMEvent :=
  if llmScoreTruthy applicant_fields then []
  else llmAttemptLoop oracle 0 3

/-!
Section: The record store for one applicant, the compressor
(`src/main.py` lines 181-227) and the decompressor
(`src/decompress.py` lines 23-85)

Every store access in both scripts filters on the processed
applicant's identifier (`{Applicant ID} = '...'` on the root,
`{Applicant} = '...'` on the children), so the state is the applicant's
own slice of the base: the root's parsed `Compressed JSON` field plus
the lists of matching child records, in the order the store returns
them (`first` takes the head).  `json.dumps`/`json.loads` are mutually
inverse on these documents, so the root's text field is carried in
parsed form.  Fresh record ids for `create`/`batch_create` come from a
counter. -/

structure ChildRecord where
  id : String
  fields : Fields
deriving DecidableEq, Repr

structure AppState where
  rootId : String
  compressedJson : Option AppJson
  personal : List ChildRecord
  experience : List ChildRecord
  salary : List ChildRecord
  counter : Nat
deriving DecidableEq, Repr

/-- `TABLE.first(...)`-style access to the fields of the first
matching record, `{}` when there is none. -/
def headFields (recs : List ChildRecord) : Fields :=
  match recs with
  | [] => []
  | r :: _ => r.fields

def freshId (n : Nat) : String := "new_rec_" ++ Nat.repr n

/-- The three-section document built by `compress_evaluate_enrich`
(step 3): each child's fields with the `Applicant` back-reference
popped. -/
def compressDoc (st : AppState) : AppJson :=
  { personal := eraseF (headFields st.personal) "Applicant"
    experience := st.experience.map (fun r => eraseF r.fields "Applicant")
    salary := eraseF (headFields st.salary) "Applicant" }

/-- The compression stage of `compress_evaluate_enrich`
(`src/main.py` lines 194-220): build the document and write it onto
the root's `Compressed JSON` field. -/
def compress_applicant_data (st : AppState) : AppState :=
  { st with compressedJson := some (compressDoc st) }

/-- A section prepared for writing: `data["Applicant"] = [record_id]`
then `data.pop('Id', None)`. -/
def childPayload (rootId : String) (sec : Fields) : Fields :=
  eraseF (setF sec "Applicant" (.vLink [rootId])) "Id"

/-- The one-to-one upsert used for `personal` and `salary`: skip a
falsy (empty) section; otherwise update the first existing record
(a PATCH, merging fields) or create a new one. -/
def upsertChild (rootId : String) (sec : Fields) (recs : List ChildRecord)
    (counter : Nat) : List ChildRecord × Nat :=
  if sec = [] then (recs, counter)
  else
    match recs with
    | [] => ([⟨freshId counter, childPayload rootId sec⟩], counter + 1)
    | r :: rest => (⟨r.id, mergeF r.fields (childPayload rootId sec)⟩ :: rest, counter)

/-- `batch_create`: one new record per payload, fresh ids in order. -/
def createWithIds (counter : Nat) : List Fields → List ChildRecord
  | [] => []
  | f :: rest => ⟨freshId counter, f⟩ :: createWithIds (counter + 1) rest

/-- The one-to-many sync for `experience`: skip a falsy (empty) array;
otherwise delete every existing record and `batch_create` one record
per array element. -/
def syncExperience (rootId : String) (arr : List Fields) (recs : List ChildRecord)
    (counter : Nat) : List ChildRecord × Nat :=
  if arr = [] then (recs, counter)
  else (createWithIds counter (arr.map (childPayload rootId)), counter + arr.length)

/-- `decompress_applicant_data` (`src/decompress.py` lines 23-85):
parse the root's `Compressed JSON` (a missing/unparsable field logs
and returns, leaving the state unchanged), then upsert `personal`,
replace `experience` wholesale, and upsert `salary`. -/
def decompress_applicant_data (st : AppState) : AppState :=
  match st.compressedJson with
  | none => st
  | some applicant_data =>
    let p := upsertChild st.rootId applicant_data.personal st.personal st.counter
    let e := syncExperience st.rootId applicant_data.experience st.experience p.2
    let s := upsertChild st.rootId applicant_data.salary st.salary e.2
    { st with personal := p.1, experience := e.1, salary := s.1, counter := s.2 }

/-- Forget the fields that are never round-tripped: the `Applicant`
back-reference and the `Id` identifier. -/
def stripMeta (fs : Fields) : Fields := eraseF (eraseF fs "Applicant") "Id"

theorem eraseF_idem (fs : Fields) (k : String) :
    eraseF (eraseF fs k) k = eraseF fs k := by
  induction fs with
  | nil => simp [eraseF]
  | cons e rest ih =>
    obtain ⟨ek, ev⟩ := e
    by_cases h : ek = k <;> simp [eraseF, h, ih]

theorem stripMeta_idem (fs : Fields) : stripMeta (stripMeta fs) = stripMeta fs := by
  unfold stripMeta
  rw [eraseF_comm (eraseF (eraseF fs "Applicant") "Id") "Applicant" "Id",
    eraseF_idem (eraseF fs "Applicant") "Id",
    eraseF_comm (eraseF fs "Applicant") "Id" "Applicant",
    eraseF_idem fs "Applicant"]

theorem eraseF_applicant_id (v : Value) :
    eraseF [("Applicant", v)] "Id" = [("Applicant", v)] := by
  have h : ¬ ("Applicant" : String) = "Id" := by decide
  simp [eraseF, h]

theorem eraseF_applicant_self (v : Value) :
    eraseF [("Applicant", v)] "Applicant" = [] := by
  simp [eraseF]

theorem stripMeta_append_link (fs : Fields) (v : Value) :
    stripMeta (fs ++ [("Applicant", v)]) = stripMeta fs := by
  unfold stripMeta
  rw [eraseF_append, eraseF_applicant_self, List.append_nil]

/-- The payload the decompressor writes for a section that the
compressor built from `fs`: exactly `fs` without back-reference and
identifier, plus the re-attached back-reference at the end. -/
theorem payload_section (rid : String) (fs : Fields) :
    childPayload rid (eraseF fs "Applicant")
      = stripMeta fs ++ [("Applicant", Value.vLink [rid])] := by
  unfold childPayload stripMeta
  rw [setF_of_not_mem _ _ _ (getF_eraseF_self fs "Applicant"), eraseF_append,
    eraseF_applicant_id]

theorem stripMeta_childPayload_roundtrip (rid : String) (fs : Fields) :
    stripMeta (childPayload rid (eraseF fs "Applicant")) = stripMeta fs := by
  rw [payload_section, stripMeta_append_link, stripMeta_idem]

theorem mergeF_single (fs : Fields) (k : String) (v : Value) :
    mergeF fs [(k, v)] = setF fs k v := rfl

theorem mem_of_mem_stripMeta (fs : Fields) (e : String × Value)
    (h : e ∈ stripMeta fs) : e ∈ fs :=
  mem_of_mem_eraseF _ _ _ (mem_of_mem_eraseF _ _ _ h)

theorem mergeF_stripMeta_self (fs : Fields) (hnd : noDupKeysB fs = true) :
    mergeF fs (stripMeta fs) = fs := by
  refine mergeF_of_sub _ _ fun e he => ?_
  have hm : (e.1, e.2) ∈ fs := by
    rw [Prod.mk.eta]
    exact mem_of_mem_stripMeta fs e he
  exact getF_of_mem_nodup fs e.1 e.2 hnd hm

/-- Updating the existing child with the payload the compressor built
from its own fields only resets the back-reference. -/
theorem mergeF_childPayload_self (rid : String) (fs : Fields)
    (hnd : noDupKeysB fs = true) :
    mergeF fs (childPayload rid (eraseF fs "Applicant"))
      = setF fs "Applicant" (Value.vLink [rid]) := by
  rw [payload_section, mergeF_append, mergeF_stripMeta_self fs hnd, mergeF_single]

theorem stripMeta_setF_applicant (fs : Fields) (v : Value) :
    stripMeta (setF fs "Applicant" v) = stripMeta fs := by
  unfold stripMeta
  rw [eraseF_setF_same]

theorem createWithIds_fields (c : Nat) (l : List Fields) :
    (createWithIds c l).map (fun r => r.fields) = l := by
  induction l generalizing c with
  | nil => rfl
  | cons f rest ih => simp [createWithIds, ih]

theorem createWithIds_length (c : Nat) (l : List Fields) :
    (createWithIds c l).length = l.length := by
  induction l generalizing c with
  | nil => rfl
  | cons f rest ih => simp [createWithIds, ih]

theorem noDupKeysB_childPayload (rid : String) (sec : Fields)
    (h : noDupKeysB sec = true) : noDupKeysB (childPayload rid sec) = true :=
  noDupKeysB_eraseF _ _ (noDupKeysB_setF _ _ _ h)

theorem getF_mergeF_mem (fs gs : Fields) (k : String) (v : Value)
    (hnd : noDupKeysB gs = true) (h : (k, v) ∈ gs) :
    getF (mergeF fs gs) k = some v := by
  rw [getF_mergeF fs gs k hnd, getF_of_mem_nodup gs k v hnd h]

/-- Re-applying the same PATCH is a no-op. -/
theorem mergeF_mergeF_self (fs gs : Fields) (hnd : noDupKeysB gs = true) :
    mergeF (mergeF fs gs) gs = mergeF fs gs := by
  refine mergeF_of_sub _ _ fun e he => ?_
  have hm : (e.1, e.2) ∈ gs := by rw [Prod.mk.eta]; exact he
  exact getF_mergeF_mem fs gs e.1 e.2 hnd hm

theorem mergeF_self (gs : Fields) (hnd : noDupKeysB gs = true) :
    mergeF gs gs = gs := by
  refine mergeF_of_sub _ _ fun e he => ?_
  have hm : (e.1, e.2) ∈ gs := by rw [Prod.mk.eta]; exact he
  exact getF_of_mem_nodup gs e.1 e.2 hnd hm

/-!
Section: The three shortlist rules as the specification words them,
and the refinement of `evaluate_shortlisting` against them
-/

/-- One entry satisfies the tier-1 clause: its `Company` is a string
whose lower-casing is in the allow-list. -/
def specTier1Entry (e : Fields) : Bool :=
  match getF e "Company" with
  | some (.vStr s) => TIER_1_COMPANIES.contains (pyLower s)
  | _ => false

/-- Experience rule: total years at least 4, or some entry's company
is tier-1 (case-insensitively). -/
def specExperienceRule (now : PyDate) (j : AppJson) : Bool :=
  decide ((4 : Rat) ≤ calculate_total_experience now j.experience)
    || j.experience.any specTier1Entry

/-- Compensation rule: `Preferred Rate` present as a number and at
most 100, and `Availability (hrs/wk)` present as a number and at least
20; absent or null values fail. -/
def specCompensationRule (j : AppJson) : Bool :=
  (match getF j.salary "Preferred Rate" with
   | some (.vNum q) => decide (q ≤ 100)
   | _ => false)
  && (match getF j.salary "Availability (hrs/wk)" with
      | some (.vNum q) => decide ((20 : Rat) ≤ q)
      | _ => false)

/-- Location rule: the lower-cased `Location` string contains one of
the allow-listed substrings. -/
def specLocationRule (j : AppJson) : Bool :=
  match getF j.personal "Location" with
  | some (.vStr s) => APPROVED_LOCATIONS.any (fun loc => containsStr loc (pyLower s))
  | _ => false

/-- A `Company`/`Location`-style field is absent or a string (its
Airtable column type): exactly the values on which the Python rules
run without raising. -/
def wtStrOpt : Option Value → Bool
  | none => true
  | some (.vStr _) => true
  | some _ => false

/-- A numeric column's value is absent, null, or a number. -/
def wtNumOpt : Option Value → Bool
  | none => true
  | some .vNull => true
  | some (.vNum _) => true
  | some _ => false

/-- The compressed document carries the store's declared field types
in the fields the rules read. -/
def wellTypedDoc (j : AppJson) : Bool :=
  j.experience.all (fun e => wtStrOpt (getF e "Company"))
    && wtNumOpt (getF j.salary "Preferred Rate")
    && wtNumOpt (getF j.salary "Availability (hrs/wk)")
    && wtStrOpt (getF j.personal "Location")

theorem exBind_ok {α β : Type} (a : α) (f : α → Except Unit β) :
    (Except.ok a >>= f) = f a := rfl

theorem bind_ite_ok {α β : Type} (b : Bool) (x y : α) (f : α → Except Unit β) :
    ((if b then Except.ok x else Except.ok y) >>= f) = f (if b then x else y) := by
  cases b <;> rfl

theorem ite_false_and (b c : Bool) : (if b then c else false) = (b && c) := by
  cases b <;> rfl

/-- The short-circuiting `any(... in TIER_1_COMPANIES ...)` generator
agrees with the per-entry tier-1 clause on well-typed entries. -/
theorem worked_at_tier_1_spec (l : List Fields)
    (h : l.all (fun e => wtStrOpt (getF e "Company")) = true) :
    worked_at_tier_1 l = .ok (l.any specTier1Entry) := by
  induction l with
  | nil => rfl
  | cons job rest ih =>
    rw [List.all_cons, Bool.and_eq_true] at h
    obtain ⟨hj, hr⟩ := h
    rcases hc : getF job "Company" with _ | v
    · have hemp : pyLower "" ∉ TIER_1_COMPANIES := by decide
      simp [worked_at_tier_1, asPyStr, hc, exBind_ok, hemp, List.any_cons,
        specTier1Entry, ih hr]
    · rcases v with _ | s | q | ids
      · rw [hc] at hj; simp [wtStrOpt] at hj
      · by_cases hT : pyLower s ∈ TIER_1_COMPANIES
        · simp [worked_at_tier_1, asPyStr, hc, exBind_ok, hT, List.any_cons,
            specTier1Entry]
        · simp [worked_at_tier_1, asPyStr, hc, exBind_ok, hT, List.any_cons,
            specTier1Entry, ih hr]
      · rw [hc] at hj; simp [wtStrOpt] at hj
      · rw [hc] at hj; simp [wtStrOpt] at hj

theorem ok_ite {α : Type} (b : Bool) (x y : α) :
    (if b then Except.ok x else Except.ok y) = (Except.ok (if b then x else y) : Except Unit α) := by
  cases b <;> rfl

/-- On a well-typed document the evaluator runs without raising and
creates exactly one lead iff the three specification rules all pass,
no lead otherwise. -/
theorem evaluate_shortlisting_spec (now : PyDate) (rid : String) (j : AppJson)
    (h : wellTypedDoc j = true) :
    evaluate_shortlisting now rid j =
      .ok (if specExperienceRule now j && specCompensationRule j && specLocationRule j
           then [mkLead now rid j (j.experience.any specTier1Entry)]
           else []) := by
  unfold wellTypedDoc at h
  rw [Bool.and_eq_true, Bool.and_eq_true, Bool.and_eq_true] at h
  obtain ⟨⟨⟨hexp, hrate⟩, havail⟩, hloc⟩ := h
  unfold evaluate_shortlisting specExperienceRule specCompensationRule specLocationRule
  dsimp only
  rw [worked_at_tier_1_spec _ hexp, exBind_ok]
  have hemp : (APPROVED_LOCATIONS.any fun loc => containsStr loc (pyLower "")) = false := by
    decide
  rcases hr : getF j.salary "Preferred Rate" with _ | v
  · rcases hl : getF j.personal "Location" with _ | w
    · simp only [hr, hl, asPyStr, exBind_ok, bind_ite_ok, ite_false_and, ite_self,
        ok_ite, hemp, Bool.false_and, Bool.and_false, if_neg Bool.false_ne_true]
    · rcases w with _ | s | q | ids
      · rw [hl] at hloc; simp [wtStrOpt] at hloc
      · simp only [hr, hl, asPyStr, exBind_ok, bind_ite_ok, ite_false_and, ite_self,
          ok_ite, Bool.false_and, Bool.and_false, if_neg Bool.false_ne_true]
      · rw [hl] at hloc; simp [wtStrOpt] at hloc
      · rw [hl] at hloc; simp [wtStrOpt] at hloc
  · rcases v with _ | s | q | ids
    · rcases hl : getF j.personal "Location" with _ | w
      · simp only [hr, hl, asPyStr, exBind_ok, bind_ite_ok, ite_false_and, ite_self,
          ok_ite, hemp, Bool.false_and, Bool.and_false, if_neg Bool.false_ne_true]
      · rcases w with _ | s' | q' | ids'
        · rw [hl] at hloc; simp [wtStrOpt] at hloc
        · simp only [hr, hl, asPyStr, exBind_ok, bind_ite_ok, ite_false_and, ite_self,
            ok_ite, Bool.false_and, Bool.and_false, if_neg Bool.false_ne_true]
        · rw [hl] at hloc; simp [wtStrOpt] at hloc
        · rw [hl] at hloc; simp [wtStrOpt] at hloc
    · rw [hr] at hrate; simp [wtNumOpt] at hrate
    · rcases ha : getF j.salary "Availability (hrs/wk)" with _ | w
      · rcases hl : getF j.personal "Location" with _ | u
        · simp only [hr, ha, hl, asPyStr, exBind_ok, bind_ite_ok, ite_false_and,
            ite_self, ok_ite, hemp, Bool.and_false, if_neg Bool.false_ne_true]
        · rcases u with _ | s' | q' | ids'
          · rw [hl] at hloc; simp [wtStrOpt] at hloc
          · simp only [hr, ha, hl, asPyStr, exBind_ok, bind_ite_ok, ite_false_and,
              ite_self, ok_ite, Bool.and_false, if_neg Bool.false_ne_true]
          · rw [hl] at hloc; simp [wtStrOpt] at hloc
          · rw [hl] at hloc; simp [wtStrOpt] at hloc
      · rcases w with _ | s' | q' | ids'
        · rcases hl : getF j.personal "Location" with _ | u
          · simp only [hr, ha, hl, asPyStr, exBind_ok, bind_ite_ok, ite_false_and,
              ite_self, ok_ite, hemp, Bool.and_false, if_neg Bool.false_ne_true]
          · rcases u with _ | s'' | q'' | ids''
            · rw [hl] at hloc; simp [wtStrOpt] at hloc
            · simp only [hr, ha, hl, asPyStr, exBind_ok, bind_ite_ok, ite_false_and,
                ite_self, ok_ite, Bool.and_false, if_neg Bool.false_ne_true]
            · rw [hl] at hloc; simp [wtStrOpt] at hloc
            · rw [hl] at hloc; simp [wtStrOpt] at hloc
        · rw [ha] at havail; simp [wtNumOpt] at havail
        · rcases hl : getF j.personal "Location" with _ | u
          · simp only [hr, ha, hl, asPyStr, exBind_ok, bind_ite_ok, ite_false_and,
              ite_self, ok_ite, hemp, Bool.and_false, if_neg Bool.false_ne_true]
          · rcases u with _ | s'' | q'' | ids''
            · rw [hl] at hloc; simp [wtStrOpt] at hloc
            · simp only [hr, ha, hl, asPyStr, exBind_ok, bind_ite_ok, ite_false_and,
                ite_self, ok_ite]
              by_cases hq : q ≤ 100 <;> simp [hq]
            · rw [hl] at hloc; simp [wtStrOpt] at hloc
            · rw [hl] at hloc; simp [wtStrOpt] at hloc
        · rw [ha] at havail; simp [wtNumOpt] at havail
    · rw [hr] at hrate; simp [wtNumOpt] at hrate

theorem specExperienceRule_months (now : PyDate) (j : AppJson) :
    specExperienceRule now j
      = (decide ((48 : Int) ≤ totalMonths now j.experience)
          || j.experience.any specTier1Entry) := by
  rw [specExperienceRule, experience_decide_eq]

theorem foldl_months (now : PyDate) (jobs : List Fields) (a : Int) :
    jobs.foldl
        (fun acc job =>
          match jobMonths now job with
          | some m => acc + m
          | none => acc)
        a
      = a + (jobs.filterMap (jobMonths now)).sum := by
  induction jobs generalizing a with
  | nil => simp
  | cons job rest ih =>
    cases hj : jobMonths now job with
    | none => simp [List.foldl_cons, List.filterMap_cons, hj, ih]
    | some m =>
      simp only [List.foldl_cons, List.filterMap_cons, hj, ih, List.sum_cons]
      ring

/-- The loop accumulator equals the sum over the non-skipped entries. -/
theorem totalMonths_eq_sum (now : PyDate) (jobs : List Fields) :
    totalMonths now jobs = (jobs.filterMap (jobMonths now)).sum := by
  rw [totalMonths, foldl_months]
  simp

/-!
Section: Behaviour of the decompressor's two write primitives
-/

theorem createWithIds_map {α : Type} (g : Fields → α) (l : List Fields) (c : Nat) :
    (createWithIds c l).map (fun r => g r.fields) = l.map g := by
  induction l generalizing c with
  | nil => rfl
  | cons f rest ih => simp [createWithIds, ih]

/-- Round trip for the one-to-one upsert: decompressing the section
the compressor built leaves every record's fields unchanged up to the
back-reference and identifier. -/
theorem upsert_roundtrip_strip (rid : String) (recs : List ChildRecord) (c : Nat)
    (h : recs.all (fun r => noDupKeysB r.fields) = true) :
    (upsertChild rid (eraseF (headFields recs) "Applicant") recs c).1.map
        (fun r => stripMeta r.fields)
      = recs.map (fun r => stripMeta r.fields) := by
  cases recs with
  | nil => simp [headFields, eraseF, upsertChild]
  | cons p rest =>
    rw [List.all_cons, Bool.and_eq_true] at h
    by_cases hsec : eraseF p.fields "Applicant" = ([] : Fields)
    · simp [upsertChild, headFields, hsec]
    · simp only [upsertChild, headFields, if_neg hsec, List.map_cons]
      rw [mergeF_childPayload_self rid p.fields h.1, stripMeta_setF_applicant]

/-- Round trip for the one-to-many sync. -/
theorem sync_roundtrip_strip (rid : String) (recs : List ChildRecord) (c : Nat) :
    (syncExperience rid (recs.map (fun r => eraseF r.fields "Applicant")) recs c).1.map
        (fun r => stripMeta r.fields)
      = recs.map (fun r => stripMeta r.fields) := by
  unfold syncExperience
  by_cases he : recs.map (fun r => eraseF r.fields "Applicant") = ([] : List Fields)
  · simp [he]
  · rw [if_neg he]
    rw [createWithIds_map stripMeta, List.map_map, List.map_map]
    refine List.map_congr_left fun r _ => ?_
    exact stripMeta_childPayload_roundtrip rid r.fields

/-- Applying the same one-to-one upsert twice gives the same fields
and count as applying it once. -/
theorem upsert_twice (rid : String) (sec : Fields) (recs : List ChildRecord)
    (c c' : Nat) (hnd : noDupKeysB sec = true) :
    ((upsertChild rid sec (upsertChild rid sec recs c).1 c').1.map (fun r => r.fields)
        = (upsertChild rid sec recs c).1.map (fun r => r.fields))
    ∧ (upsertChild rid sec (upsertChild rid sec recs c).1 c').1.length
        = (upsertChild rid sec recs c).1.length := by
  have hpnd : noDupKeysB (childPayload rid sec) = true :=
    noDupKeysB_childPayload rid sec hnd
  by_cases hsec : sec = []
  · simp [upsertChild, hsec]
  · cases recs with
    | nil =>
      simp only [upsertChild, if_neg hsec, List.map_cons, List.map_nil,
        List.length_cons, List.length_nil]
      rw [mergeF_self _ hpnd]
      simp
    | cons p rest =>
      simp only [upsertChild, if_neg hsec, List.map_cons, List.length_cons]
      rw [mergeF_mergeF_self _ _ hpnd]
      simp

/-- Applying the same one-to-many sync twice gives the same fields,
and a non-empty array fixes the record count at the array's length. -/
theorem sync_twice (rid : String) (arr : List Fields) (recs : List ChildRecord)
    (c c' : Nat) :
    ((syncExperience rid arr (syncExperience rid arr recs c).1 c').1.map (fun r => r.fields)
        = (syncExperience rid arr recs c).1.map (fun r => r.fields))
    ∧ (syncExperience rid arr (syncExperience rid arr recs c).1 c').1.length
        = (syncExperience rid arr recs c).1.length
    ∧ (arr ≠ [] →
        (syncExperience rid arr recs c).1.length = arr.length
        ∧ (syncExperience rid arr (syncExperience rid arr recs c).1 c').1.length
            = arr.length) := by
  by_cases harr : arr = []
  · simp [syncExperience, harr]
  · simp only [syncExperience, if_neg harr]
    refine ⟨?_, ?_, fun _ => ⟨?_, ?_⟩⟩
    · rw [createWithIds_map (fun f => f), createWithIds_map (fun f => f)]
    · rw [createWithIds_length, createWithIds_length]
    · rw [createWithIds_length, List.length_map]
    · rw [createWithIds_length, List.length_map]

/-- What the one-to-one upsert writes for a non-empty section: the
first record (updated in place or freshly created) holds the payload's
fields, falling back to its prior fields for keys the payload does not
mention; the remaining records are untouched. -/
theorem upsert_characterize (rid : String) (sec : Fields) (recs : List ChildRecord)
    (c : Nat) (hnd : noDupKeysB sec = true) (hne : sec ≠ []) :
    ∃ r, (upsertChild rid sec recs c).1 = r :: recs.tail
      ∧ ∀ k, getF r.fields k =
          (match getF (childPayload rid sec) k with
           | some v => some v
           | none => getF (headFields recs) k) := by
  have hpnd : noDupKeysB (childPayload rid sec) = true :=
    noDupKeysB_childPayload rid sec hnd
  cases recs with
  | nil =>
    refine ⟨⟨freshId c, childPayload rid sec⟩, ?_, ?_⟩
    · simp [upsertChild, hne]
    · intro k
      cases hk : getF (childPayload rid sec) k <;> simp [hk, headFields]
  | cons p rest =>
    refine ⟨⟨p.id, mergeF p.fields (childPayload rid sec)⟩, ?_, ?_⟩
    · simp [upsertChild, hne]
    · intro k
      rw [getF_mergeF _ _ _ hpnd]
      cases hk : getF (childPayload rid sec) k <;> simp [hk, headFields]

/-!
Section: The claims
-/

/-- C1: Round-trip — compressing an applicant's normalized records and
then decompressing the resulting document reproduces the Personal and
Salary field sets and the Experience list (here even in order, which
implies equality as a set), modulo the back-reference (`Applicant`)
and identifier (`Id`) fields, which are never round-tripped.  The
hypotheses state that the stored records are genuine dicts (no
duplicate keys). -/
theorem c1_round_trip (st : AppState)
    (hp : st.personal.all (fun r => noDupKeysB r.fields) = true)
    (hs : st.salary.all (fun r => noDupKeysB r.fields) = true) :
    ((decompress_applicant_data (compress_applicant_data st)).personal.map
        (fun r => stripMeta r.fields) = st.personal.map (fun r => stripMeta r.fields))
    ∧ ((decompress_applicant_data (compress_applicant_data st)).salary.map
        (fun r => stripMeta r.fields) = st.salary.map (fun r => stripMeta r.fields))
    ∧ ((decompress_applicant_data (compress_applicant_data st)).experience.map
        (fun r => stripMeta r.fields) = st.experience.map (fun r => stripMeta r.fields)) := by
  simp only [compress_applicant_data, decompress_applicant_data, compressDoc]
  exact ⟨upsert_roundtrip_strip _ _ _ hp, upsert_roundtrip_strip _ _ _ hs,
    sync_roundtrip_strip _ _ _⟩

def c1wState : AppState :=
  { rootId := "root"
    compressedJson := none
    personal := [⟨"p1", [("Location", Value.vStr "US"), ("Applicant", Value.vLink ["root"])]⟩]
    experience := [⟨"e1", [("Company", Value.vStr "Google"), ("Applicant", Value.vLink ["root"])]⟩,
      ⟨"e2", [("Company", Value.vStr "Acme"), ("Start", Value.vStr "2019-01-01")]⟩]
    salary := [⟨"s1", [("Preferred Rate", Value.vNum 80)]⟩]
    counter := 0 }

/-- Witness for C1 at a concrete store state. -/
theorem c1_round_trip_witness :
    ((c1wState.personal.all (fun r => noDupKeysB r.fields) = true)
      ∧ (c1wState.salary.all (fun r => noDupKeysB r.fields) = true))
    ∧ (((decompress_applicant_data (compress_applicant_data c1wState)).personal.map
          (fun r => stripMeta r.fields) = c1wState.personal.map (fun r => stripMeta r.fields))
        ∧ ((decompress_applicant_data (compress_applicant_data c1wState)).salary.map
          (fun r => stripMeta r.fields) = c1wState.salary.map (fun r => stripMeta r.fields))
        ∧ ((decompress_applicant_data (compress_applicant_data c1wState)).experience.map
          (fun r => stripMeta r.fields) = c1wState.experience.map (fun r => stripMeta r.fields))) :=
  ⟨⟨by decide, by decide⟩, c1_round_trip c1wState (by decide) (by decide)⟩

/-- C2: Shortlist decision — on a document carrying the store's
declared field types, the evaluator creates exactly one Shortlisted
Lead (carrying the full compressed document and the reason data) iff
the three rules all pass, and creates nothing iff some rule fails. -/
theorem c2_shortlist_decision (now : PyDate) (rid : String) (j : AppJson)
    (h : wellTypedDoc j = true) :
    (evaluate_shortlisting now rid j
        = Except.ok [mkLead now rid j (j.experience.any specTier1Entry)]
      ↔ (specExperienceRule now j && specCompensationRule j && specLocationRule j) = true)
    ∧ (evaluate_shortlisting now rid j = Except.ok []
      ↔ (specExperienceRule now j && specCompensationRule j && specLocationRule j) = false) := by
  rw [evaluate_shortlisting_spec now rid j h]
  by_cases hb : (specExperienceRule now j && specCompensationRule j && specLocationRule j) = true
  · simp [hb]
  · rw [Bool.not_eq_true] at hb
    simp [hb]

def c2wDoc : AppJson :=
  { personal := [("Location", Value.vStr "United States")]
    experience := [[("Start", Value.vStr "2019-01-01"), ("End", Value.vStr "2023-01-01")]]
    salary := [("Preferred Rate", Value.vNum 80), ("Availability (hrs/wk)", Value.vNum 25)] }

/-- Witness for C2 at a concrete document. -/
theorem c2_shortlist_decision_witness :
    wellTypedDoc c2wDoc = true
    ∧ ((evaluate_shortlisting ⟨2023, 6, 1⟩ "rec" c2wDoc
          = Except.ok [mkLead ⟨2023, 6, 1⟩ "rec" c2wDoc (c2wDoc.experience.any specTier1Entry)]
        ↔ (specExperienceRule ⟨2023, 6, 1⟩ c2wDoc && specCompensationRule c2wDoc
            && specLocationRule c2wDoc) = true)
      ∧ (evaluate_shortlisting ⟨2023, 6, 1⟩ "rec" c2wDoc = Except.ok []
        ↔ (specExperienceRule ⟨2023, 6, 1⟩ c2wDoc && specCompensationRule c2wDoc
            && specLocationRule c2wDoc) = false)) :=
  ⟨by decide, c2_shortlist_decision ⟨2023, 6, 1⟩ "rec" c2wDoc (by decide)⟩

def c3jobs : List Fields :=
  [[("Start", Value.vStr "2019-01-01"), ("End", Value.vStr "2021-01-01")],
   [("Start", Value.vStr "2021-06-01"), ("End", Value.vNull)]]

/-- C3: Experience-years calculation — for every experience list the
loop total equals the sum, over the entries whose `Start` parses, of
the month-difference to `End` (or to the current date when `End` is
falsy), divided by 12; skipped entries contribute nothing.  On the
specification's concrete example against a fixed now of 2023-06-01
the total is 48 months = 4.0 years. -/
theorem c3_experience_years :
    (∀ (now : PyDate) (jobs : List Fields),
      calculate_total_experience now jobs
        = (((jobs.filterMap (jobMonths now)).sum : Int) : Rat) / 12)
    ∧ totalMonths ⟨2023, 6, 1⟩ c3jobs = 48
    ∧ calculate_total_experience ⟨2023, 6, 1⟩ c3jobs = 4 := by
  refine ⟨fun now jobs => ?_, by decide, ?_⟩
  · rw [calculate_total_experience, totalMonths_eq_sum]
  · rw [calculate_total_experience,
      (by decide : totalMonths ⟨2023, 6, 1⟩ c3jobs = 48)]
    norm_num

def c4cexDoc : AppJson := { personal := [], experience := [], salary := [] }

def c4cexState : AppState :=
  { rootId := "root"
    compressedJson := some c4cexDoc
    personal := []
    experience := [⟨"e1", [("Company", Value.vStr "Acme")]⟩]
    salary := []
    counter := 0 }

/-- C4 counterexample: a valid compressed document with an empty
experience array over a store that still holds one Experience record.
Decompression (once or twice) leaves that record in place, so the
Experience record count is 1, not the input array length 0 — the
claim's count clause fails as stated. -/
theorem c4_counterexample :
    c4cexState.compressedJson = some c4cexDoc
    ∧ c4cexDoc.experience.length = 0
    ∧ (decompress_applicant_data c4cexState).experience.length = 1
    ∧ (decompress_applicant_data (decompress_applicant_data c4cexState)).experience.length = 1 := by
  decide

/-- C4 amended: running decompression twice yields the same normalized
state as running it once — identical Personal/Salary/Experience field
lists and counts (the second run updates rather than creates) — and,
whenever the experience array is non-empty, both runs leave exactly
one Experience record per array element (never twice as many); an
empty array leaves the prior Experience records untouched in both
runs. -/
theorem c4_idempotence_amended (st : AppState) (doc : AppJson)
    (hdoc : st.compressedJson = some doc)
    (hp : noDupKeysB doc.personal = true)
    (hs : noDupKeysB doc.salary = true) :
    ((decompress_applicant_data (decompress_applicant_data st)).personal.map (fun r => r.fields)
        = (decompress_applicant_data st).personal.map (fun r => r.fields))
    ∧ ((decompress_applicant_data (decompress_applicant_data st)).salary.map (fun r => r.fields)
        = (decompress_applicant_data st).salary.map (fun r => r.fields))
    ∧ ((decompress_applicant_data (decompress_applicant_data st)).experience.map (fun r => r.fields)
        = (decompress_applicant_data st).experience.map (fun r => r.fields))
    ∧ (decompress_applicant_data (decompress_applicant_data st)).personal.length
        = (decompress_applicant_data st).personal.length
    ∧ (decompress_applicant_data (decompress_applicant_data st)).salary.length
        = (decompress_applicant_data st).salary.length
    ∧ (decompress_applicant_data (decompress_applicant_data st)).experience.length
        = (decompress_applicant_data st).experience.length
    ∧ (doc.experience ≠ [] →
        (decompress_applicant_data st).experience.length = doc.experience.length
        ∧ (decompress_applicant_data (decompress_applicant_data st)).experience.length
            = doc.experience.length) := by
  simp only [decompress_applicant_data, hdoc]
  exact ⟨(upsert_twice _ _ _ _ _ hp).1, (upsert_twice _ _ _ _ _ hs).1,
    (sync_twice _ _ _ _ _).1, (upsert_twice _ _ _ _ _ hp).2, (upsert_twice _ _ _ _ _ hs).2,
    (sync_twice _ _ _ _ _).2.1, fun hne => (sync_twice _ _ _ _ _).2.2 hne⟩

def c4wDoc : AppJson :=
  { personal := [("Location", Value.vStr "US")]
    experience := [[("Company", Value.vStr "Acme")]]
    salary := [("Preferred Rate", Value.vNum 80)] }

def c4wState : AppState :=
  { rootId := "root"
    compressedJson := some c4wDoc
    personal := []
    experience := [⟨"e0", [("Company", Value.vStr "Old")]⟩]
    salary := []
    counter := 0 }

/-- Witness for the amended C4 at a concrete state. -/
theorem c4_idempotence_amended_witness :
    (c4wState.compressedJson = some c4wDoc
      ∧ noDupKeysB c4wDoc.personal = true
      ∧ noDupKeysB c4wDoc.salary = true)
    ∧ (((decompress_applicant_data (decompress_applicant_data c4wState)).personal.map (fun r => r.fields)
        = (decompress_applicant_data c4wState).personal.map (fun r => r.fields))
      ∧ ((decompress_applicant_data (decompress_applicant_data c4wState)).salary.map (fun r => r.fields)
        = (decompress_applicant_data c4wState).salary.map (fun r => r.fields))
      ∧ ((decompress_applicant_data (decompress_applicant_data c4wState)).experience.map (fun r => r.fields)
        = (decompress_applicant_data c4wState).experience.map (fun r => r.fields))
      ∧ (decompress_applicant_data (decompress_applicant_data c4wState)).personal.length
        = (decompress_applicant_data c4wState).personal.length
      ∧ (decompress_applicant_data (decompress_applicant_data c4wState)).salary.length
        = (decompress_applicant_data c4wState).salary.length
      ∧ (decompress_applicant_data (decompress_applicant_data c4wState)).experience.length
        = (decompress_applicant_data c4wState).experience.length
      ∧ (c4wDoc.experience ≠ [] →
          (decompress_applicant_data c4wState).experience.length = c4wDoc.experience.length
          ∧ (decompress_applicant_data (decompress_applicant_data c4wState)).experience.length
              = c4wDoc.experience.length)) :=
  ⟨⟨by decide, by decide, by decide⟩,
    c4_idempotence_amended c4wState c4wDoc (by decide) (by decide) (by decide)⟩

def c5cexDoc : AppJson := { personal := [], experience := [], salary := [] }

def c5cexState : AppState :=
  { rootId := "root"
    compressedJson := some c5cexDoc
    personal := [⟨"p1", [("Location", Value.vStr "Mars")]⟩]
    experience := []
    salary := []
    counter := 0 }

/-- C5 counterexample: the compressed document's `personal` section is
empty, yet after decompression the Personal record still holds its
prior field `Location = "Mars"` — the dependent state does not equal
the content of the JSON document when a section is empty, so the
full-overwrite claim fails as stated. -/
theorem c5_counterexample :
    c5cexState.compressedJson = some c5cexDoc
    ∧ c5cexDoc.personal = []
    ∧ (decompress_applicant_data c5cexState).personal.map (fun r => r.fields)
        = [[("Location", Value.vStr "Mars")]]
    ∧ (decompress_applicant_data c5cexState).personal.map (fun r => r.fields) ≠ [] := by
  decide

/-- C5 amended: decompression replaces the Experience collection
wholesale with the (non-empty) incoming array — each element with the
back-reference attached and the identifier stripped, all prior records
discarded — while a non-empty `personal`/`salary` section is merged
onto the first existing record (section fields win, prior fields not
mentioned by the section survive; the record is created from the
payload when absent).  Empty sections leave the prior state
unchanged. -/
theorem c5_overwrite_amended (st : AppState) (doc : AppJson)
    (hdoc : st.compressedJson = some doc)
    (hp : noDupKeysB doc.personal = true)
    (hs : noDupKeysB doc.salary = true) :
    (doc.experience = [] → (decompress_applicant_data st).experience = st.experience)
    ∧ (doc.experience ≠ [] →
        (decompress_applicant_data st).experience.map (fun r => r.fields)
          = doc.experience.map (childPayload st.rootId))
    ∧ (doc.personal = [] → (decompress_applicant_data st).personal = st.personal)
    ∧ (doc.personal ≠ [] →
        ∃ r, (decompress_applicant_data st).personal = r :: st.personal.tail
          ∧ ∀ k, getF r.fields k =
              (match getF (childPayload st.rootId doc.personal) k with
               | some v => some v
               | none => getF (headFields st.personal) k))
    ∧ (doc.salary = [] → (decompress_applicant_data st).salary = st.salary)
    ∧ (doc.salary ≠ [] →
        ∃ r, (decompress_applicant_data st).salary = r :: st.salary.tail
          ∧ ∀ k, getF r.fields k =
              (match getF (childPayload st.rootId doc.salary) k with
               | some v => some v
               | none => getF (headFields st.salary) k)) := by
  simp only [decompress_applicant_data, hdoc]
  refine ⟨fun he => ?_, fun hne => ?_, fun hpe => ?_, fun hpne => ?_,
    fun hse => ?_, fun hsne => ?_⟩
  · simp [syncExperience, he]
  · simp only [syncExperience, if_neg hne]
    rw [createWithIds_map (fun f => f)]
    simp
  · simp [upsertChild, hpe]
  · exact upsert_characterize _ _ _ _ hp hpne
  · simp [upsertChild, hse]
  · exact upsert_characterize _ _ _ _ hs hsne

def c5wDoc : AppJson :=
  { personal := [("Location", Value.vStr "Canada"), ("Phone", Value.vStr "123")]
    experience := [[("Company", Value.vStr "Acme")], [("Company", Value.vStr "Globex")]]
    salary := [] }

def c5wState : AppState :=
  { rootId := "root"
    compressedJson := some c5wDoc
    personal := [⟨"p1", [("Location", Value.vStr "US"), ("Nickname", Value.vStr "Jo")]⟩]
    experience := [⟨"e0", [("Company", Value.vStr "Old")]⟩]
    salary := [⟨"s1", [("Preferred Rate", Value.vNum 50)]⟩]
    counter := 0 }

/-- Witness for the amended C5 at a concrete state. -/
theorem c5_overwrite_amended_witness :
    (c5wState.compressedJson = some c5wDoc
      ∧ noDupKeysB c5wDoc.personal = true
      ∧ noDupKeysB c5wDoc.salary = true)
    ∧ ((c5wDoc.experience = [] →
          (decompress_applicant_data c5wState).experience = c5wState.experience)
      ∧ (c5wDoc.experience ≠ [] →
          (decompress_applicant_data c5wState).experience.map (fun r => r.fields)
            = c5wDoc.experience.map (childPayload c5wState.rootId))
      ∧ (c5wDoc.personal = [] →
          (decompress_applicant_data c5wState).personal = c5wState.personal)
      ∧ (c5wDoc.personal ≠ [] →
          ∃ r, (decompress_applicant_data c5wState).personal = r :: c5wState.personal.tail
            ∧ ∀ k, getF r.fields k =
                (match getF (childPayload c5wState.rootId c5wDoc.personal) k with
                 | some v => some v
                 | none => getF (headFields c5wState.personal) k))
      ∧ (c5wDoc.salary = [] →
          (decompress_applicant_data c5wState).salary = c5wState.salary)
      ∧ (c5wDoc.salary ≠ [] →
          ∃ r, (decompress_applicant_data c5wState).salary = r :: c5wState.salary.tail
            ∧ ∀ k, getF r.fields k =
                (match getF (childPayload c5wState.rootId c5wDoc.salary) k with
                 | some v => some v
                 | none => getF (headFields c5wState.salary) k))) :=
  ⟨⟨by decide, by decide, by decide⟩,
    c5_overwrite_amended c5wState c5wDoc (by decide) (by decide) (by decide)⟩

/-- C6: LLM response parsing — the specification's example text parses
to `LLM Summary = "Strong candidate"`, `LLM Score = 8`, and an
`LLM Follow-Ups` field holding the `Follow-Ups:` label line together
with both bullet lines (subsequent non-empty lines are accumulated
after the label line by the line-oriented scanner). -/
theorem c6_parse_llm_response :
    parse_llm_response
        "Summary: Strong candidate\nScore: 8\nFollow-Ups: - Ask about visa status\n- Ask about notice period"
      = { summary := some "Strong candidate", score := some 8,
          followUps := some "Follow-Ups: - Ask about visa status\n- Ask about notice period" } := by
  decide

/-- C7: Retry policy — when the guard does not skip and every call to
the generation service raises, the evaluator performs exactly three
attempts, sleeping `2 ** attempt` seconds between consecutive attempts
(1s after the first failure, 2s after the second), and then returns
with no `updateRoot` write; the embedding is a total function into
traces, reflecting that the Python function catches every exception
and returns normally. -/
theorem c7_retry_policy (fs : Fields) (oracle : Nat → Except Unit String)
    (hg : llmScoreTruthy fs = false)
    (h0 : oracle 0 = Except.error ()) (h1 : oracle 1 = Except.error ())
    (h2 : oracle 2 = Except.error ()) :
    evaluate_with_llm fs oracle
      = [LLMEvent.genCall 0, LLMEvent.sleep 1, LLMEvent.genCall 1,
         LLMEvent.sleep 2, LLMEvent.genCall 2] := by
  unfold evaluate_with_llm
  rw [hg]
  simp [llmAttemptLoop, h0, h1, h2, pow_succ]

/-- Witness for C7: an empty root record and an always-failing
generation service. -/
theorem c7_retry_policy_witness :
    (llmScoreTruthy [] = false
      ∧ (fun _ : Nat => (Except.error () : Except Unit String)) 0 = Except.error ()
      ∧ (fun _ : Nat => (Except.error () : Except Unit String)) 1 = Except.error ()
      ∧ (fun _ : Nat => (Except.error () : Except Unit String)) 2 = Except.error ())
    ∧ evaluate_with_llm [] (fun _ => Except.error ())
        = [LLMEvent.genCall 0, LLMEvent.sleep 1, LLMEvent.genCall 1,
           LLMEvent.sleep 2, LLMEvent.genCall 2] :=
  ⟨⟨by decide, rfl, rfl, rfl⟩,
    c7_retry_policy [] (fun _ => Except.error ()) (by decide) rfl rfl rfl⟩

/-- C8 counterexample: a root record whose `LLM Score` is the non-null
value 0.  The guard tests Python truthiness, `0` is falsy, so the
evaluator does call the generation service (three failing attempts
here) instead of performing zero calls — the claim fails for non-null
but falsy scores. -/
theorem c8_counterexample :
    getF [("LLM Score", Value.vNum 0)] "LLM Score" = some (Value.vNum 0)
    ∧ Value.vNum 0 ≠ Value.vNull
    ∧ evaluate_with_llm [("LLM Score", Value.vNum 0)] (fun _ => Except.error ())
        = [LLMEvent.genCall 0, LLMEvent.sleep 1, LLMEvent.genCall 1,
           LLMEvent.sleep 2, LLMEvent.genCall 2]
    ∧ evaluate_with_llm [("LLM Score", Value.vNum 0)] (fun _ => Except.error ()) ≠ [] := by
  decide

/-- C8 amended: for every root record whose `LLM Score` holds a truthy
value (present, non-null, non-zero, non-empty), the evaluator returns
immediately: its trace is empty — zero calls to the generation service
and zero writes to the store. -/
theorem c8_guard_amended (fs : Fields) (oracle : Nat → Except Unit String)
    (h : llmScoreTruthy fs = true) :
    evaluate_with_llm fs oracle = [] := by
  unfold evaluate_with_llm
  rw [h]
  simp

/-- Witness for the amended C8 at a concrete root record. -/
theorem c8_guard_amended_witness :
    llmScoreTruthy [("LLM Score", Value.vNum 8)] = true
    ∧ evaluate_with_llm [("LLM Score", Value.vNum 8)] (fun _ => Except.error ()) = [] :=
  ⟨by decide, c8_guard_amended [("LLM Score", Value.vNum 8)] (fun _ => Except.error ()) (by decide)⟩

def c9doc : AppJson :=
  { personal := [("Location", Value.vStr "us")]
    experience := [[("Start", Value.vStr "2019-06-01"), ("End", Value.vNull)]]
    salary := [("Preferred Rate", Value.vNum 80), ("Availability (hrs/wk)", Value.vNum 25)] }

/-- C9 counterexample: the evaluator reads the current date through
`datetime.now()`, so it is not a pure function of the document alone —
the very same document is rejected when evaluated on 2023-05-01
(47 months of experience) and shortlisted when evaluated on 2023-06-01
(48 months). -/
theorem c9_counterexample :
    (evaluate_shortlisting ⟨2023, 5, 1⟩ "rec" c9doc).map List.length = Except.ok 0
    ∧ (evaluate_shortlisting ⟨2023, 6, 1⟩ "rec" c9doc).map List.length = Except.ok 1 := by
  constructor
  · rw [evaluate_shortlisting_spec _ _ _ (by decide)]
    have h1 : specExperienceRule ⟨2023, 5, 1⟩ c9doc = false := by
      rw [specExperienceRule_months]; decide
    simp [h1, Except.map]
  · rw [evaluate_shortlisting_spec _ _ _ (by decide)]
    have h1 : specExperienceRule ⟨2023, 6, 1⟩ c9doc = true := by
      rw [specExperienceRule_months]; decide
    have h2 : specCompensationRule c9doc = true := by decide
    have h3 : specLocationRule c9doc = true := by decide
    simp [h1, h2, h3, Except.map]

/-- C9 amended: the evaluation is a pure function of the document and
the current date, and the date enters only through the computed total
experience years — two evaluations of the same document whose
experience totals agree produce identical results (decision, created
lead and reason included). -/
theorem c9_determinism_amended (n1 n2 : PyDate) (rid : String) (j : AppJson)
    (h : calculate_total_experience n1 j.experience
          = calculate_total_experience n2 j.experience) :
    evaluate_shortlisting n1 rid j = evaluate_shortlisting n2 rid j := by
  unfold evaluate_shortlisting mkLead
  dsimp only
  rw [h]

/-- Witness for the amended C9. -/
theorem c9_determinism_amended_witness :
    calculate_total_experience ⟨2023, 6, 1⟩ c9doc.experience
        = calculate_total_experience ⟨2023, 6, 1⟩ c9doc.experience
    ∧ evaluate_shortlisting ⟨2023, 6, 1⟩ "rec" c9doc
        = evaluate_shortlisting ⟨2023, 6, 1⟩ "rec" c9doc :=
  ⟨rfl, c9_determinism_amended ⟨2023, 6, 1⟩ ⟨2023, 6, 1⟩ "rec" c9doc rfl⟩

def c10doc : AppJson :=
  { personal := [("Location", Value.vStr "Australia")]
    experience := [[("Company", Value.vStr "Google")]]
    salary := [("Preferred Rate", Value.vNum 80), ("Availability (hrs/wk)", Value.vNum 25)] }

/-- C10: Location-rule over-matching — the rule is substring
containment in the lower-cased location, so `"Australia"` and
`"Russia"` pass (both contain `"us"`) even though neither lower-cased
string is itself an allow-list entry; an otherwise-qualified applicant
located in Australia is in fact shortlisted. -/
theorem c10_location_overmatch :
    APPROVED_LOCATIONS.any (fun loc => containsStr loc (pyLower "Australia")) = true
    ∧ APPROVED_LOCATIONS.any (fun loc => containsStr loc (pyLower "Russia")) = true
    ∧ APPROVED_LOCATIONS.contains (pyLower "Australia") = false
    ∧ APPROVED_LOCATIONS.contains (pyLower "Russia") = false
    ∧ specLocationRule c10doc = true
    ∧ (evaluate_shortlisting ⟨2023, 6, 1⟩ "rec" c10doc).map List.length = Except.ok 1 := by
  refine ⟨by decide, by decide, by decide, by decide, by decide, ?_⟩
  rw [evaluate_shortlisting_spec _ _ _ (by decide)]
  have h1 : specExperienceRule ⟨2023, 6, 1⟩ c10doc = true := by
    rw [specExperienceRule_months]; decide
  have h2 : specCompensationRule c10doc = true := by decide
  have h3 : specLocationRule c10doc = true := by decide
  simp [h1, h2, h3, Except.map]

end Mercor

